import Mathlib

/-!
Verification of the UW Assignment Tracker core logic.

Shallow embedding of the core of src/src/UWAssignmentTracker.jsx and
src/src/utils/validation.js:

* the status-count ledger (one record per underwriter: status, count,
  statusTime, statusTimestamp) and its mutation operations
  (changeStatus, changeCount),
* the daily reset check performed at the start of loadData,
* the authorization gate (canModifyStatus / canModifyCount),
* the sort engine (getSortedUnderwriters),
* the clock adapter (getCSTDateString).

JavaScript objects are embedded as association lists that preserve key
insertion order (JS string-keyed objects iterate in insertion order, and
spread-update keeps the position of an existing key while a new key is
appended).  Machine integers are embedded as Int.  Nullable fields are
Option.  Store writes are counted explicitly in the operation results.
-/

/-- Status strings of a record: green, neutral or red. -/
inductive Status where
  | green
  | neutral
  | red
deriving DecidableEq, Repr

/-- One underwriter record of the ledger, mirroring the JS object
{ status, count, statusTime, statusTimestamp }.  statusTime is the
human-readable display time, statusTimestamp the epoch-millisecond
sortable timestamp; both are null exactly when cleared. -/
structure UWRecord where
  status : Status
  count : Int
  statusTime : Option String
  statusTimestamp : Option Int
deriving DecidableEq, Repr

/-- The shared ledger: lastResetDate (a civil-date string) plus the
underwriters object, embedded as an insertion-ordered association list. -/
structure Ledger where
  lastResetDate : String
  underwriters : List (String × UWRecord)
deriving DecidableEq, Repr

/-- Lookup of appData.underwriters[email] (first matching key). -/
def lookupUW (l : List (String × UWRecord)) (e : String) : Option UWRecord :=
  (l.find? (fun p => p.1 == e)).map (fun p => p.2)

/-- JS spread update of the underwriters object with key e: an existing
key keeps its position, a new key is appended at the end. -/
def setUW (l : List (String × UWRecord)) (e : String) (r : UWRecord) :
    List (String × UWRecord) :=
  match l with
  | [] => [(e, r)]
  | (k, v) :: rest =>
      if k == e then (k, r) :: rest else (k, v) :: setUW rest e r

/-- The record a fresh underwriter is created with: neutral, count 0,
both timestamp fields null (createDefaultData / the config sync). -/
def defaultRecord : UWRecord :=
  { status := Status.neutral, count := 0,
    statusTime := none, statusTimestamp := none }

/-- User roles from validation.js (UserRole). -/
inductive UserRole where
  | underwriter
  | assigner
  | unknown
deriving DecidableEq, Repr

/-- normalizeEmail from validation.js: trim then lowercase, modelled
character-wise (drop whitespace at both ends, lowercase every
character). -/
def normalizeEmail (s : String) : String :=
  String.mk
    ((((s.data.dropWhile Char.isWhitespace).reverse.dropWhile
      Char.isWhitespace).reverse).map Char.toLower)

/-- canModifyStatus from validation.js: assigners may modify any status;
underwriters only their own record (normalized email comparison). -/
def canModifyStatus (currentUserEmail targetEmail : String)
    (userRole : UserRole) : Bool :=
  match userRole with
  | UserRole.assigner => true
  | UserRole.underwriter =>
      normalizeEmail currentUserEmail == normalizeEmail targetEmail
  | UserRole.unknown => false

/-- canModifyCount from validation.js: assigners only. -/
def canModifyCount (userRole : UserRole) : Bool :=
  userRole == UserRole.assigner

/-- Result of a mutating UI operation: the ledger afterwards, how many
store writes were issued (saveData calls), and whether the unauthorized
notification was raised. -/
structure OpResult where
  ledger : Ledger
  writes : Nat
  unauthorized : Bool
deriving DecidableEq, Repr

/-- changeStatus from UWAssignmentTracker.jsx.  The current display time
and epoch timestamp produced by getCSTTimeString / getCSTTimestamp are
passed as the parameters timeStr and ts.  An unauthorized call shows a
notification and returns before touching appData or the store. -/
def changeStatus (currentUser : String) (userRole : UserRole)
    (email : String) (newStatus : Status) (timeStr : String) (ts : Int)
    (appData : Ledger) : OpResult :=
  if !(canModifyStatus currentUser email userRole) then
    { ledger := appData, writes := 0, unauthorized := true }
  else
    let currentStatus :=
      ((lookupUW appData.underwriters email).map (fun r => r.status)).getD
        Status.neutral
    let updatedStatus :=
      if currentStatus = newStatus then Status.neutral else newStatus
    let old := (lookupUW appData.underwriters email).getD defaultRecord
    let newRec : UWRecord :=
      { status := updatedStatus,
        count := old.count,
        statusTime :=
          if updatedStatus ≠ Status.neutral then some timeStr else none,
        statusTimestamp :=
          if updatedStatus ≠ Status.neutral then some ts else none }
    { ledger :=
        { lastResetDate := appData.lastResetDate,
          underwriters := setUW appData.underwriters email newRec },
      writes := 1, unauthorized := false }

/-- changeCount from UWAssignmentTracker.jsx.  Reads the current count
(0 when the record or field is missing), clamps currentCount + delta to
[0, 99] via Math.max/Math.min, and always saves the updated ledger. -/
def changeCount (userRole : UserRole) (email : String) (delta : Int)
    (appData : Ledger) : OpResult :=
  if !(canModifyCount userRole) then
    { ledger := appData, writes := 0, unauthorized := true }
  else
    let currentCount :=
      ((lookupUW appData.underwriters email).map (fun r => r.count)).getD 0
    let newCount := max 0 (min 99 (currentCount + delta))
    let old := (lookupUW appData.underwriters email).getD defaultRecord
    let newRec : UWRecord :=
      { status := old.status, count := newCount,
        statusTime := old.statusTime,
        statusTimestamp := old.statusTimestamp }
    { ledger :=
        { lastResetDate := appData.lastResetDate,
          underwriters := setUW appData.underwriters email newRec },
      writes := 1, unauthorized := false }

/-- The daily-reset check at the start of loadData: if lastResetDate is
not today, wipe every record back to the creation values, stamp today as
lastResetDate and issue one full-ledger write; otherwise do nothing.
Returns the resulting ledger and the number of store writes issued. -/
def checkAndReset (data : Ledger) (today : String) : Ledger × Nat :=
  if data.lastResetDate == today then (data, 0)
  else
    ( { lastResetDate := today,
        underwriters :=
          data.underwriters.map (fun p => (p.1, defaultRecord)) },
      1 )

/-- A configuration: the CONFIG.underwriters object as an
insertion-ordered list of (email, display name). -/
abbrev Config : Type := List (String × String)

/-- createDefaultData: one default record per configured underwriter,
lastResetDate stamped with the current civil date. -/
def createDefaultData (config : Config) (today : String) : Ledger :=
  { lastResetDate := today,
    underwriters := config.map (fun p => (p.1, defaultRecord)) }

/-- One step of the config sync in loadData: add a default record for a
configured underwriter that has none (new keys are appended). -/
def syncStep (acc : List (String × UWRecord)) (p : String × String) :
    List (String × UWRecord) :=
  if (lookupUW acc p.1).isSome then acc else acc ++ [(p.1, defaultRecord)]

/-- The config sync in loadData: ensure every configured underwriter has
a record. -/
def syncConfig (config : Config) (data : Ledger) : Ledger :=
  { lastResetDate := data.lastResetDate,
    underwriters := config.foldl syncStep data.underwriters }

/-- Ledger states reachable from the initial state by the core
operations: creation, daily reset, config sync, status toggles and
counter adjustments (by arbitrary actors and at arbitrary clock
readings; unauthorized calls leave the ledger unchanged). -/
inductive Reachable (config : Config) : Ledger → Prop where
  | init (today : String) : Reachable config (createDefaultData config today)
  | reset (L : Ledger) (today : String) :
      Reachable config L → Reachable config (checkAndReset L today).1
  | sync (L : Ledger) :
      Reachable config L → Reachable config (syncConfig config L)
  | status (L : Ledger) (cu : String) (role : UserRole) (email : String)
      (s : Status) (t : String) (ts : Int) :
      Reachable config L →
      Reachable config (changeStatus cu role email s t ts L).ledger
  | count (L : Ledger) (role : UserRole) (email : String) (delta : Int) :
      Reachable config L →
      Reachable config (changeCount role email delta L).ledger

/-- The view of one underwriter built by getSortedUnderwriters before
sorting: configured email and name, plus the ledger fields with the
JS fallbacks (status || neutral, count || 0, timestamps || null). -/
structure UWView where
  email : String
  name : String
  status : Status
  count : Int
  statusTime : Option String
  statusTimestamp : Option Int
deriving DecidableEq, Repr

/-- The unsorted entries array of getSortedUnderwriters: one view per
configured underwriter, in configuration order. -/
def entriesOf (config : Config) (appData : Ledger) : List UWView :=
  config.map (fun p =>
    { email := p.1, name := p.2,
      status :=
        ((lookupUW appData.underwriters p.1).map (fun r => r.status)).getD
          Status.neutral,
      count :=
        ((lookupUW appData.underwriters p.1).map (fun r => r.count)).getD 0,
      statusTime :=
        (lookupUW appData.underwriters p.1).bind (fun r => r.statusTime),
      statusTimestamp :=
        (lookupUW appData.underwriters p.1).bind
          (fun r => r.statusTimestamp) })

/-- The order the green and red comparators sort by: ascending sortable
timestamp, a missing timestamp read as epoch 0 (statusTimestamp || 0). -/
def tsLE (a b : UWView) : Prop :=
  a.statusTimestamp.getD 0 ≤ b.statusTimestamp.getD 0

instance : DecidableRel tsLE := fun a b => by
  unfold tsLE
  infer_instance

instance : IsTotal UWView tsLE :=
  ⟨fun a b => le_total (a.statusTimestamp.getD 0) (b.statusTimestamp.getD 0)⟩

instance : IsTrans UWView tsLE :=
  ⟨fun _ _ _ hab hbc => le_trans hab hbc⟩

/-- The order the neutral comparator sorts by (comparator value ≤ 0):
records without a positive count come first, ordered by name
(localeCompare embedded as the lexicographic order on strings); records
with a positive count follow, ordered by count. -/
def neutralLE (a b : UWView) : Prop :=
  (0 < a.count ∧ 0 < b.count ∧ a.count ≤ b.count) ∨
  (¬ 0 < a.count ∧ 0 < b.count) ∨
  (¬ 0 < a.count ∧ ¬ 0 < b.count ∧ a.name ≤ b.name)

instance : DecidableRel neutralLE := fun a b => by
  unfold neutralLE
  infer_instance

instance : IsTotal UWView neutralLE := by
  constructor
  intro a b
  by_cases ha : 0 < a.count <;> by_cases hb : 0 < b.count
  · rcases le_total a.count b.count with h | h
    · exact Or.inl (Or.inl ⟨ha, hb, h⟩)
    · exact Or.inr (Or.inl ⟨hb, ha, h⟩)
  · exact Or.inr (Or.inr (Or.inl ⟨hb, ha⟩))
  · exact Or.inl (Or.inr (Or.inl ⟨ha, hb⟩))
  · rcases le_total a.name b.name with h | h
    · exact Or.inl (Or.inr (Or.inr ⟨ha, hb, h⟩))
    · exact Or.inr (Or.inr (Or.inr ⟨hb, ha, h⟩))

instance : IsTrans UWView neutralLE := by
  constructor
  intro a b c hab hbc
  rcases hab with ⟨ha, hb, h1⟩ | ⟨ha, hb⟩ | ⟨ha, hb, h1⟩ <;>
    rcases hbc with ⟨hb2, hc, h2⟩ | ⟨hb2, hc⟩ | ⟨hb2, hc, h2⟩ <;>
      first
        | exact absurd hb hb2
        | exact absurd hb2 hb
        | exact Or.inl ⟨ha, hc, le_trans h1 h2⟩
        | exact Or.inr (Or.inl ⟨ha, hc⟩)
        | exact Or.inr (Or.inr ⟨ha, hc, le_trans h1 h2⟩)

/-- getSortedUnderwriters: build the views, partition by status, sort
the green and red groups by sortable timestamp, sort the neutral group
with the two-level count/name comparator, and concatenate
greens ++ neutrals ++ reds.  JS Array.prototype.sort with a consistent
comparator is a stable sort, embedded as insertion sort on the order the
comparator induces. -/
def getSortedUnderwriters (config : Config) (appData : Ledger) :
    List UWView :=
  let entries := entriesOf config appData
  let greens := entries.filter (fun u => u.status == Status.green)
  let neutrals := entries.filter (fun u => u.status == Status.neutral)
  let reds := entries.filter (fun u => u.status == Status.red)
  List.insertionSort tsLE greens ++ List.insertionSort neutralLE neutrals ++
    List.insertionSort tsLE reds

/-- Gregorian calendar date (year, month, day) of a day number counted
from 1970-01-01, as rendered by Date.prototype.toISOString. -/
def civilFromDays (day : Int) : Int × Int × Int :=
  let z := day + 719468
  let era := Int.fdiv z 146097
  let doe := z - era * 146097
  let yoe := Int.fdiv (doe - Int.fdiv doe 1460 + Int.fdiv doe 36524 -
    Int.fdiv doe 146096) 365
  let y := yoe + era * 400
  let doy := doe - (365 * yoe + Int.fdiv yoe 4 - Int.fdiv yoe 100)
  let mp := Int.fdiv (5 * doy + 2) 153
  let d := doy - Int.fdiv (153 * mp + 2) 5 + 1
  let m := mp + (if mp < 10 then 3 else -9)
  (y + (if m ≤ 2 then 1 else 0), m, d)

/-- Two-digit zero padding of a month or day number. -/
def pad2 (n : Int) : String :=
  if n < 10 then "0" ++ toString n else toString n

/-- The date part of toISOString for the given day number. -/
def isoDateOfDay (day : Int) : String :=
  let c := civilFromDays day
  toString c.1 ++ "-" ++ pad2 c.2.1 ++ "-" ++ pad2 c.2.2

/-- getCSTDateString, as a function of the current instant (epoch ms)
and the host environment offset (getTimezoneOffset in minutes, positive
west of UTC, assumed constant around the instant).  The code shifts the
epoch by (hostOffset - 360) minutes, reads the hour of that shifted Date
in host-local time, subtracts one local calendar day when the hour is
before 02:00 (setDate), and then formats the shifted epoch with
toISOString, which renders in UTC. -/
def getCSTDateString (nowMs tzOffsetMin : Int) : String :=
  let cstOffset : Int := -6 * 60
  let cstTime := nowMs + (tzOffsetMin + cstOffset) * 60000
  let localHours := Int.emod (Int.fdiv (cstTime - tzOffsetMin * 60000) 3600000) 24
  let cstTime2 := if localHours < 2 then cstTime - 86400000 else cstTime
  isoDateOfDay (Int.fdiv cstTime2 86400000)

/-- The civil date the spec describes, as a second definition following
the spec words: the calendar date of the instant in the fixed UTC-6
timezone, where a wall-clock time before 02:00 still belongs to the
previous calendar day.  Depends only on the instant. -/
def specCivilDate (nowMs : Int) : String :=
  let w := nowMs - 6 * 60 * 60000
  let hours := Int.emod (Int.fdiv w 3600000) 24
  let w2 := if hours < 2 then w - 86400000 else w
  isoDateOfDay (Int.fdiv w2 86400000)

/-- Spec-side helper used by the toggle law of the spec: directly set
the target record status to Neutral with both timestamp fields null,
leaving its counter unchanged. -/
def setStatusNeutral (appData : Ledger) (email : String) : Ledger :=
  let old := (lookupUW appData.underwriters email).getD defaultRecord
  { lastResetDate := appData.lastResetDate,
    underwriters :=
      setUW appData.underwriters email
        { status := Status.neutral, count := old.count,
          statusTime := none, statusTimestamp := none } }

/-! ### Association-list lemmas for the underwriters object -/

theorem lookupUW_setUW_self (l : List (String × UWRecord)) (e : String)
    (r : UWRecord) : lookupUW (setUW l e r) e = some r := by
  induction l with
  | nil => simp [setUW, lookupUW]
  | cons p t ih =>
    obtain ⟨k, v⟩ := p
    by_cases h : k = e
    · simp [setUW, lookupUW, h]
    · simpa [setUW, lookupUW, h] using ih

theorem setUW_setUW (l : List (String × UWRecord)) (e : String)
    (r₁ r₂ : UWRecord) : setUW (setUW l e r₁) e r₂ = setUW l e r₂ := by
  induction l with
  | nil => simp [setUW]
  | cons p t ih =>
    obtain ⟨k, v⟩ := p
    by_cases h : k = e
    · simp [setUW, h]
    · simp [setUW, h, ih]

theorem mem_setUW {l : List (String × UWRecord)} {e : String} {r : UWRecord}
    {q : String × UWRecord} (hq : q ∈ setUW l e r) : q ∈ l ∨ q = (e, r) := by
  induction l with
  | nil => simpa [setUW] using hq
  | cons p t ih =>
    obtain ⟨k, v⟩ := p
    by_cases h : k = e
    · simp [setUW, h] at hq
      rcases hq with hq | hq
      · exact Or.inr (by simp [hq, h])
      · exact Or.inl (List.mem_cons_of_mem _ hq)
    · simp [setUW, h] at hq
      rcases hq with hq | hq
      · exact Or.inl (by simp [hq])
      · rcases ih hq with h2 | h2
        · exact Or.inl (List.mem_cons_of_mem _ h2)
        · exact Or.inr h2

theorem lookupUW_mem {l : List (String × UWRecord)} {e : String}
    {r : UWRecord} (h : lookupUW l e = some r) : ∃ k, (k, r) ∈ l := by
  unfold lookupUW at h
  rw [Option.map_eq_some'] at h
  obtain ⟨p, hp, hpr⟩ := h
  refine ⟨p.1, ?_⟩
  have hm := List.mem_of_find?_eq_some hp
  rwa [← hpr, Prod.mk.eta]

/-! ### Invariant machinery for reachable ledgers -/

/-- Counter bounds invariant: every record count lies in [0, 99]. -/
def countInv (L : Ledger) : Prop :=
  ∀ p ∈ L.underwriters, 0 ≤ p.2.count ∧ p.2.count ≤ 99

/-- Timestamp invariant: a record is neutral exactly when both of its
timestamp fields are null. -/
def tsInv (L : Ledger) : Prop :=
  ∀ p ∈ L.underwriters,
    (p.2.status = Status.neutral ↔
      (p.2.statusTime = none ∧ p.2.statusTimestamp = none))

theorem defaultRecord_count_bounds :
    0 ≤ defaultRecord.count ∧ defaultRecord.count ≤ 99 := by
  simp [defaultRecord]

theorem clamp_bounds (x : Int) :
    0 ≤ max 0 (min 99 x) ∧ max 0 (min 99 x) ≤ 99 :=
  ⟨le_max_left 0 _, max_le (by norm_num) (min_le_left 99 x)⟩

theorem mem_syncFold (config : Config) :
    ∀ (l₀ : List (String × UWRecord)) (q : String × UWRecord),
      q ∈ config.foldl syncStep l₀ → q ∈ l₀ ∨ q.2 = defaultRecord := by
  induction config with
  | nil => exact fun _ _ hq => Or.inl hq
  | cons p rest ih =>
    intro l₀ q hq
    rcases ih (syncStep l₀ p) q hq with h | h
    · unfold syncStep at h
      split at h
      · exact Or.inl h
      · rcases List.mem_append.mp h with h2 | h2
        · exact Or.inl h2
        · simp at h2
          exact Or.inr (by simp [h2])
    · exact Or.inr h

theorem countInv_reachable {config : Config} {M : Ledger}
    (h : Reachable config M) : countInv M := by
  induction h with
  | init today =>
    intro p hp
    simp [createDefaultData] at hp
    obtain ⟨a, _, ha⟩ := hp
    have : p.2 = defaultRecord := by simp [← ha]
    rw [this]
    exact defaultRecord_count_bounds
  | reset L today _ ih =>
    intro p hp
    by_cases hd : L.lastResetDate = today
    · simp [checkAndReset, hd] at hp
      exact ih p hp
    · simp [checkAndReset, hd] at hp
      obtain ⟨a, _, ha⟩ := hp
      have : p.2 = defaultRecord := by simp [← ha]
      rw [this]
      exact defaultRecord_count_bounds
  | sync L _ ih =>
    intro p hp
    rcases mem_syncFold config L.underwriters p hp with h2 | h2
    · exact ih p h2
    · rw [h2]
      exact defaultRecord_count_bounds
  | status L cu role email s t ts _ ih =>
    intro p hp
    unfold changeStatus at hp
    split at hp
    · exact ih p hp
    · simp only at hp
      rcases mem_setUW hp with h2 | h2
      · exact ih p h2
      · rw [h2]
        cases hl : lookupUW L.underwriters email with
        | none => simpa [hl] using defaultRecord_count_bounds
        | some r =>
          obtain ⟨k, hk⟩ := lookupUW_mem hl
          simpa [hl] using ih (k, r) hk
  | count L role email delta _ ih =>
    intro p hp
    unfold changeCount at hp
    split at hp
    · exact ih p hp
    · simp only at hp
      rcases mem_setUW hp with h2 | h2
      · exact ih p h2
      · rw [h2]
        exact clamp_bounds _

theorem defaultRecord_tsInv :
    defaultRecord.status = Status.neutral ↔
      (defaultRecord.statusTime = none ∧
        defaultRecord.statusTimestamp = none) := by
  simp [defaultRecord]

theorem tsInv_reachable {config : Config} {M : Ledger}
    (h : Reachable config M) : tsInv M := by
  induction h with
  | init today =>
    intro p hp
    simp [createDefaultData] at hp
    obtain ⟨a, _, ha⟩ := hp
    have : p.2 = defaultRecord := by simp [← ha]
    rw [this]
    exact defaultRecord_tsInv
  | reset L today _ ih =>
    intro p hp
    by_cases hd : L.lastResetDate = today
    · simp [checkAndReset, hd] at hp
      exact ih p hp
    · simp [checkAndReset, hd] at hp
      obtain ⟨a, _, ha⟩ := hp
      have : p.2 = defaultRecord := by simp [← ha]
      rw [this]
      exact defaultRecord_tsInv
  | sync L _ ih =>
    intro p hp
    rcases mem_syncFold config L.underwriters p hp with h2 | h2
    · exact ih p h2
    · rw [h2]
      exact defaultRecord_tsInv
  | status L cu role email s t ts _ ih =>
    intro p hp
    unfold changeStatus at hp
    split at hp
    · exact ih p hp
    · simp only at hp
      rcases mem_setUW hp with h2 | h2
      · exact ih p h2
      · rw [h2]
        by_cases hs :
            (if (((lookupUW L.underwriters email).map
                (fun r => r.status)).getD Status.neutral) = s
              then Status.neutral else s) = Status.neutral <;>
          simp [hs]
  | count L role email delta _ ih =>
    intro p hp
    unfold changeCount at hp
    split at hp
    · exact ih p hp
    · simp only at hp
      rcases mem_setUW hp with h2 | h2
      · exact ih p h2
      · rw [h2]
        cases hl : lookupUW L.underwriters email with
        | none => simpa [hl] using defaultRecord_tsInv
        | some r =>
          obtain ⟨k, hk⟩ := lookupUW_mem hl
          simpa [hl] using ih (k, r) hk

/-! ### Concrete sample data used by witnesses and counterexamples -/

/-- A two-underwriter configuration. -/
def sampleConfig : Config := [("amy@x.com", "Amy"), ("zara@x.com", "Zara")]

/-- A ledger from the previous civil day with one green record. -/
def sampleLedger : Ledger :=
  { lastResetDate := "2024-01-14",
    underwriters :=
      [("amy@x.com",
        { status := Status.green, count := 3,
          statusTime := some "9:00 AM", statusTimestamp := some 100 })] }

/-- A current-day ledger whose single record is neutral with count 0. -/
def zeroLedger : Ledger :=
  { lastResetDate := "2024-01-15",
    underwriters :=
      [("amy@x.com",
        { status := Status.neutral, count := 0,
          statusTime := none, statusTimestamp := none })] }

/-- A current-day ledger whose single record is already green. -/
def toggleLedger : Ledger :=
  { lastResetDate := "2024-01-15",
    underwriters :=
      [("amy@x.com",
        { status := Status.green, count := 2,
          statusTime := some "8:00 AM", statusTimestamp := some 50 })] }

/-! ### Claim theorems -/

/-- C2: checkAndReset is the identity with no store write when
lastResetEpoch already equals the given civil date; otherwise it resets
every record to neutral/0/null timestamps (keeping the set of keys),
stamps the date, and issues exactly one full-ledger write. -/
theorem checkAndReset_spec (L : Ledger) (D : String) :
    (L.lastResetDate = D → checkAndReset L D = (L, 0)) ∧
    (L.lastResetDate ≠ D →
      (checkAndReset L D).2 = 1 ∧
      (checkAndReset L D).1.lastResetDate = D ∧
      (checkAndReset L D).1.underwriters.map (fun p => p.1) =
        L.underwriters.map (fun p => p.1) ∧
      ∀ p ∈ (checkAndReset L D).1.underwriters,
        p.2.status = Status.neutral ∧ p.2.count = 0 ∧
        p.2.statusTime = none ∧ p.2.statusTimestamp = none) := by
  constructor
  · intro h
    simp [checkAndReset, h]
  · intro h
    refine ⟨by simp [checkAndReset, h], by simp [checkAndReset, h], ?_, ?_⟩
    · simp only [checkAndReset, h]
      rw [if_neg (by simpa using h), List.map_map]
      rfl
    · intro p hp
      simp only [checkAndReset, h] at hp
      rw [if_neg (by simpa using h)] at hp
      simp only [List.mem_map] at hp
      obtain ⟨a, _, ha⟩ := hp
      have h2 : p.2 = defaultRecord := by rw [← ha]
      rw [h2]
      simp [defaultRecord]

/-- Witness for C2 at a concrete stale ledger. -/
theorem checkAndReset_spec_witness :
    sampleLedger.lastResetDate ≠ "2024-01-15" ∧
    ((checkAndReset sampleLedger "2024-01-15").2 = 1 ∧
      (checkAndReset sampleLedger "2024-01-15").1.lastResetDate =
        "2024-01-15" ∧
      (checkAndReset sampleLedger "2024-01-15").1.underwriters.map
          (fun p => p.1) =
        sampleLedger.underwriters.map (fun p => p.1) ∧
      ∀ p ∈ (checkAndReset sampleLedger "2024-01-15").1.underwriters,
        p.2.status = Status.neutral ∧ p.2.count = 0 ∧
        p.2.statusTime = none ∧ p.2.statusTimestamp = none) :=
  ⟨by decide, (checkAndReset_spec sampleLedger "2024-01-15").2 (by decide)⟩

/-- C3: an authorized changeStatus toggles the target to Neutral when
the current status already equals the requested status and to the
requested status otherwise (one step even from Red to Green); the
resulting record carries both timestamp fields stamped when the new
status is non-Neutral and both cleared to null when it is Neutral. -/
theorem changeStatus_toggle_spec (cu : String) (role : UserRole)
    (email : String) (S : Status) (t : String) (ts : Int) (L : Ledger)
    (cur upd : Status)
    (hauth : canModifyStatus cu email role = true)
    (hcur : cur = ((lookupUW L.underwriters email).map
        (fun r => r.status)).getD Status.neutral)
    (hupd : upd = if cur = S then Status.neutral else S) :
    lookupUW (changeStatus cu role email S t ts L).ledger.underwriters
        email =
      some
        { status := upd,
          count := ((lookupUW L.underwriters email).getD defaultRecord).count,
          statusTime := if upd ≠ Status.neutral then some t else none,
          statusTimestamp := if upd ≠ Status.neutral then some ts else none } := by
  subst hupd
  subst hcur
  simp [changeStatus, hauth, lookupUW_setUW_self]

/-- Witness for C3: an assigner requests Red while Amy is Green; a
single call yields Red with both timestamps stamped. -/
theorem changeStatus_toggle_spec_witness :
    canModifyStatus "boss@x.com" "amy@x.com" UserRole.assigner = true ∧
    lookupUW (changeStatus "boss@x.com" UserRole.assigner "amy@x.com"
        Status.red "9:30 AM" 120 sampleLedger).ledger.underwriters
        "amy@x.com" =
      some
        { status := Status.red, count := 3,
          statusTime := some "9:30 AM", statusTimestamp := some 120 } :=
  ⟨by decide,
    changeStatus_toggle_spec "boss@x.com" UserRole.assigner "amy@x.com"
      Status.red "9:30 AM" 120 sampleLedger Status.green Status.red
      (by decide) (by decide) (by decide)⟩

/-- C4 counterexample: when the target is already Green, toggling Green
twice does not clear the record — the first call clears it and the
second sets Green again with fresh timestamps, so the double-apply law
fails on this ledger. -/
theorem toggle_law_counterexample :
    (changeStatus "boss@x.com" UserRole.assigner "amy@x.com" Status.green
        "9:00 AM" 100
        ((changeStatus "boss@x.com" UserRole.assigner "amy@x.com"
          Status.green "8:30 AM" 80 toggleLedger).ledger)).ledger ≠
      setStatusNeutral toggleLedger "amy@x.com" := by decide

/-- C4 amended: the toggle law holds whenever the target's current
status (Neutral when the record is missing) differs from the requested
status S — then the first authorized toggle sets S and the second clears
it, which equals directly setting the target to Neutral with null
timestamps. -/
theorem toggle_law_amended (cu : String) (role : UserRole) (email : String)
    (S : Status) (t1 : String) (ts1 : Int) (t2 : String) (ts2 : Int)
    (L : Ledger)
    (hauth : canModifyStatus cu email role = true)
    (hS : S ≠ Status.neutral)
    (hcur : ((lookupUW L.underwriters email).map
        (fun r => r.status)).getD Status.neutral ≠ S) :
    (changeStatus cu role email S t2 ts2
        (changeStatus cu role email S t1 ts1 L).ledger).ledger =
      setStatusNeutral L email := by
  simp [changeStatus, hauth, hcur, hS, lookupUW_setUW_self, setUW_setUW,
    setStatusNeutral]

/-- Witness for the amended C4 on a record currently Green with Red
requested. -/
theorem toggle_law_amended_witness :
    canModifyStatus "boss@x.com" "amy@x.com" UserRole.assigner = true ∧
    Status.red ≠ Status.neutral ∧
    ((lookupUW toggleLedger.underwriters "amy@x.com").map
        (fun r => r.status)).getD Status.neutral ≠ Status.red ∧
    (changeStatus "boss@x.com" UserRole.assigner "amy@x.com" Status.red
        "9:00 AM" 100
        ((changeStatus "boss@x.com" UserRole.assigner "amy@x.com"
          Status.red "8:30 AM" 80 toggleLedger).ledger)).ledger =
      setStatusNeutral toggleLedger "amy@x.com" :=
  ⟨by decide, by decide, by decide,
    toggle_law_amended "boss@x.com" UserRole.assigner "amy@x.com"
      Status.red "8:30 AM" 80 "9:00 AM" 100 toggleLedger
      (by decide) (by decide) (by decide)⟩

/-- C5: an authorized adjustCounter stores exactly the clamp
max(0, min(99, current + delta)) of the target counter, leaving the
other fields of the record; and on every ledger reachable by the core
operations every record counter lies in [0, 99]. -/
theorem counter_clamp_and_bounds (role : UserRole) (email : String)
    (delta : Int) (L : Ledger) (config : Config) (M : Ledger)
    (hrole : canModifyCount role = true) (hM : Reachable config M) :
    lookupUW (changeCount role email delta L).ledger.underwriters email =
      some
        { status := ((lookupUW L.underwriters email).getD
            defaultRecord).status,
          count := max 0 (min 99
            ((((lookupUW L.underwriters email).map
              (fun r => r.count)).getD 0) + delta)),
          statusTime := ((lookupUW L.underwriters email).getD
            defaultRecord).statusTime,
          statusTimestamp := ((lookupUW L.underwriters email).getD
            defaultRecord).statusTimestamp } ∧
    (∀ p ∈ M.underwriters, 0 ≤ p.2.count ∧ p.2.count ≤ 99) :=
  ⟨by simp [changeCount, hrole, lookupUW_setUW_self],
    countInv_reachable hM⟩

/-- Witness for C5: an assigner adds 200 to Amy's counter of 3 and the
stored value is the clamp 99; the freshly created sample ledger is
reachable and its counters are in bounds. -/
theorem counter_clamp_and_bounds_witness :
    canModifyCount UserRole.assigner = true ∧
    Reachable sampleConfig (createDefaultData sampleConfig "2024-01-15") ∧
    (lookupUW (changeCount UserRole.assigner "amy@x.com" 200
        sampleLedger).ledger.underwriters "amy@x.com" =
      some
        { status := Status.green, count := 99,
          statusTime := some "9:00 AM", statusTimestamp := some 100 } ∧
      ∀ p ∈ (createDefaultData sampleConfig "2024-01-15").underwriters,
        0 ≤ p.2.count ∧ p.2.count ≤ 99) := by
  refine ⟨by decide, Reachable.init "2024-01-15", ?_⟩
  have h := counter_clamp_and_bounds UserRole.assigner "amy@x.com" 200
    sampleLedger sampleConfig
    (createDefaultData sampleConfig "2024-01-15")
    (by decide) (Reachable.init "2024-01-15")
  exact ⟨by rw [h.1]; decide, h.2⟩

/-- C6 counterexample: with the counter at 0 and delta -1 the clamped
new counter equals the current counter, yet changeCount still issues a
store write (saveData is called unconditionally after the
authorization check) — the claimed no-op short-circuit does not exist
in the code. -/
theorem adjustCounter_write_counterexample :
    (changeCount UserRole.assigner "amy@x.com" (-1) zeroLedger).writes
        = 1 ∧
    lookupUW (changeCount UserRole.assigner "amy@x.com" (-1)
        zeroLedger).ledger.underwriters "amy@x.com" =
      some
        { status := Status.neutral, count := 0,
          statusTime := none, statusTimestamp := none } := by decide

/-- C6 amended: an authorized adjustCounter always issues exactly one
store write, even when the clamped counter equals the current one; in
particular for a zero counter and delta -1 the counter stays 0 but a
write is still issued. -/
theorem adjustCounter_always_writes (role : UserRole) (email : String)
    (delta : Int) (L : Ledger)
    (hrole : canModifyCount role = true) :
    (changeCount role email delta L).writes = 1 ∧
    ((lookupUW (changeCount role email delta L).ledger.underwriters
        email).map (fun r => r.count)).getD 0 =
      max 0 (min 99
        ((((lookupUW L.underwriters email).map
          (fun r => r.count)).getD 0) + delta)) := by
  constructor
  · simp [changeCount, hrole]
  · simp [changeCount, hrole, lookupUW_setUW_self]

/-- Witness for the amended C6 at the zero-counter ledger. -/
theorem adjustCounter_always_writes_witness :
    canModifyCount UserRole.assigner = true ∧
    ((changeCount UserRole.assigner "amy@x.com" (-1) zeroLedger).writes
        = 1 ∧
      ((lookupUW (changeCount UserRole.assigner "amy@x.com" (-1)
          zeroLedger).ledger.underwriters "amy@x.com").map
          (fun r => r.count)).getD 0 =
        max 0 (min 99
          ((((lookupUW zeroLedger.underwriters "amy@x.com").map
            (fun r => r.count)).getD 0) + (-1)))) :=
  ⟨by decide,
    adjustCounter_always_writes UserRole.assigner "amy@x.com" (-1)
      zeroLedger (by decide)⟩

/-- C7: a mutating call that fails its gate raises the unauthorized
notification and returns the ledger untouched with zero store writes;
for an actor whose role is Assigner or Underwriter the status gate
passes exactly when the role is Assigner or the trimmed, lowercased
actor email equals the trimmed, lowercased target email, and the
counter gate passes exactly for Assigners. -/
theorem auth_gate_spec (cu : String) (role : UserRole) (email : String)
    (S : Status) (t : String) (ts : Int) (delta : Int) (L : Ledger) :
    (canModifyStatus cu email role = false →
      changeStatus cu role email S t ts L =
        { ledger := L, writes := 0, unauthorized := true }) ∧
    (canModifyCount role = false →
      changeCount role email delta L =
        { ledger := L, writes := 0, unauthorized := true }) ∧
    (role = UserRole.assigner ∨ role = UserRole.underwriter →
      (canModifyStatus cu email role = true ↔
        (role = UserRole.assigner ∨
          normalizeEmail cu = normalizeEmail email))) ∧
    (canModifyCount role = true ↔ role = UserRole.assigner) := by
  refine ⟨?_, ?_, ?_, ?_⟩
  · intro h
    simp [changeStatus, h]
  · intro h
    simp [changeCount, h]
  · rintro (h | h) <;> subst h <;> simp [canModifyStatus]
  · cases role <;> simp [canModifyCount]

/-- Witness for C7: an underwriter touching a foreign record is blocked
with no mutation and no write, for both status and counter calls. -/
theorem auth_gate_spec_witness :
    canModifyStatus "amy@x.com" "zara@x.com" UserRole.underwriter
        = false ∧
    changeStatus "amy@x.com" UserRole.underwriter "zara@x.com"
        Status.green "9:00 AM" 100 zeroLedger =
      { ledger := zeroLedger, writes := 0, unauthorized := true } ∧
    canModifyCount UserRole.underwriter = false ∧
    changeCount UserRole.underwriter "zara@x.com" 1 zeroLedger =
      { ledger := zeroLedger, writes := 0, unauthorized := true } :=
  ⟨by decide,
    (auth_gate_spec "amy@x.com" UserRole.underwriter "zara@x.com"
      Status.green "9:00 AM" 100 1 zeroLedger).1 (by decide),
    by decide,
    (auth_gate_spec "amy@x.com" UserRole.underwriter "zara@x.com"
      Status.green "9:00 AM" 100 1 zeroLedger).2.1 (by decide)⟩

/-- C8: on every ledger reachable from creation by the core operations,
a record is Neutral exactly when both of its status-change timestamp
fields are null. -/
theorem status_timestamp_invariant (config : Config) (L : Ledger)
    (h : Reachable config L) :
    ∀ p ∈ L.underwriters,
      (p.2.status = Status.neutral ↔
        (p.2.statusTime = none ∧ p.2.statusTimestamp = none)) :=
  tsInv_reachable h

/-- Witness for C8 at the freshly created sample ledger. -/
theorem status_timestamp_invariant_witness :
    Reachable sampleConfig (createDefaultData sampleConfig "2024-01-15") ∧
    ∀ p ∈ (createDefaultData sampleConfig "2024-01-15").underwriters,
      (p.2.status = Status.neutral ↔
        (p.2.statusTime = none ∧ p.2.statusTimestamp = none)) :=
  ⟨Reachable.init "2024-01-15",
    status_timestamp_invariant sampleConfig _
      (Reachable.init "2024-01-15")⟩

/-- C9: getCSTDateString does not depend only on the instant.  At the
instant 2024-01-16T01:00:00Z (19:00 on Jan 15 in UTC-6) a host at
offset 0 gets the correct civil date 2024-01-15, but a host in CST
itself (offset 360) gets 2024-01-16; at the boundary instant
2024-01-15T02:30:00Z a UTC+10 host (offset -600) gets 2024-01-13 while
the UTC-6 civil date with the 02:00 rule is 2024-01-14.
The mix of host-local getHours/setDate with the UTC rendering of
toISOString shifts the result by the host timezone offset. -/
theorem getCSTDateString_host_dependent :
    specCivilDate 1705366800000 = "2024-01-15" ∧
    getCSTDateString 1705366800000 0 = "2024-01-15" ∧
    getCSTDateString 1705366800000 360 = "2024-01-16" ∧
    specCivilDate 1705300200000 = "2024-01-14" ∧
    getCSTDateString 1705300200000 (-600) = "2024-01-13" :=
  ⟨rfl, rfl, rfl, rfl, rfl⟩

/-! ### Sort engine lemmas -/

theorem mem_filter_status {l : List UWView} {s : Status} {u : UWView}
    (h : u ∈ l.filter (fun v => v.status == s)) : u.status = s := by
  have h2 := (List.mem_filter.mp h).2
  simpa using h2

theorem filter_insertionSort_of_status (r : UWView → UWView → Prop)
    [DecidableRel r] (s : Status) (l : List UWView)
    (h : ∀ u ∈ l, u.status = s) :
    (List.insertionSort r l).filter (fun u => u.status == s) =
      List.insertionSort r l := by
  apply List.filter_eq_self.mpr
  intro a ha
  have h2 := h a ((List.mem_insertionSort _).mp ha)
  simp [h2]

theorem filter_insertionSort_of_ne (r : UWView → UWView → Prop)
    [DecidableRel r] (s : Status) (l : List UWView)
    (h : ∀ u ∈ l, u.status ≠ s) :
    (List.insertionSort r l).filter (fun u => u.status == s) = [] := by
  rw [List.filter_eq_nil_iff]
  intro a ha
  have h2 := h a ((List.mem_insertionSort _).mp ha)
  simp [h2]

theorem perm_three_filter (l : List UWView) :
    List.Perm
      (l.filter (fun u => u.status == Status.green) ++
        l.filter (fun u => u.status == Status.neutral) ++
        l.filter (fun u => u.status == Status.red)) l := by
  induction l with
  | nil => simp
  | cons x t ih =>
    cases hx : x.status with
    | green =>
      simp only [List.filter_cons, hx, beq_self_eq_true, if_pos,
        beq_iff_eq, reduceCtorEq, if_neg, not_false_iff,
        List.cons_append]
      exact ih.cons x
    | neutral =>
      simp only [List.filter_cons, hx, beq_self_eq_true, if_pos,
        beq_iff_eq, reduceCtorEq, if_neg, not_false_iff]
      exact ((List.perm_middle).append_right _).trans (ih.cons x)
    | red =>
      simp only [List.filter_cons, hx, beq_self_eq_true, if_pos,
        beq_iff_eq, reduceCtorEq, if_neg, not_false_iff]
      exact (List.perm_middle).trans (ih.cons x)

theorem getSorted_eq_parts (config : Config) (L : Ledger) :
    getSortedUnderwriters config L =
      List.insertionSort tsLE ((entriesOf config L).filter
        (fun u => u.status == Status.green)) ++
      List.insertionSort neutralLE ((entriesOf config L).filter
        (fun u => u.status == Status.neutral)) ++
      List.insertionSort tsLE ((entriesOf config L).filter
        (fun u => u.status == Status.red)) := rfl

theorem getSorted_perm_entries (config : Config) (L : Ledger) :
    List.Perm (getSortedUnderwriters config L) (entriesOf config L) := by
  rw [getSorted_eq_parts]
  exact (((List.perm_insertionSort _ _).append
    (List.perm_insertionSort _ _)).append
      (List.perm_insertionSort _ _)).trans (perm_three_filter _)

theorem out_filter_green (config : Config) (L : Ledger) :
    (getSortedUnderwriters config L).filter
        (fun u => u.status == Status.green) =
      List.insertionSort tsLE ((entriesOf config L).filter
        (fun u => u.status == Status.green)) := by
  rw [getSorted_eq_parts, List.filter_append, List.filter_append]
  rw [filter_insertionSort_of_status _ _ _
      (fun u hu => mem_filter_status hu),
    filter_insertionSort_of_ne _ _ _
      (fun u hu => by have h2 := mem_filter_status hu; simp [h2]),
    filter_insertionSort_of_ne _ _ _
      (fun u hu => by have h2 := mem_filter_status hu; simp [h2])]
  simp

theorem out_filter_neutral (config : Config) (L : Ledger) :
    (getSortedUnderwriters config L).filter
        (fun u => u.status == Status.neutral) =
      List.insertionSort neutralLE ((entriesOf config L).filter
        (fun u => u.status == Status.neutral)) := by
  rw [getSorted_eq_parts, List.filter_append, List.filter_append]
  rw [filter_insertionSort_of_ne _ _ _
      (fun u hu => by have h2 := mem_filter_status hu; simp [h2]),
    filter_insertionSort_of_status _ _ _
      (fun u hu => mem_filter_status hu),
    filter_insertionSort_of_ne _ _ _
      (fun u hu => by have h2 := mem_filter_status hu; simp [h2])]
  simp

theorem out_filter_red (config : Config) (L : Ledger) :
    (getSortedUnderwriters config L).filter
        (fun u => u.status == Status.red) =
      List.insertionSort tsLE ((entriesOf config L).filter
        (fun u => u.status == Status.red)) := by
  rw [getSorted_eq_parts, List.filter_append, List.filter_append]
  rw [filter_insertionSort_of_ne _ _ _
      (fun u hu => by have h2 := mem_filter_status hu; simp [h2]),
    filter_insertionSort_of_ne _ _ _
      (fun u hu => by have h2 := mem_filter_status hu; simp [h2]),
    filter_insertionSort_of_status _ _ _
      (fun u hu => mem_filter_status hu)]
  simp

/-- C1: getSortedUnderwriters is a permutation of the per-record views
that decomposes as its green block, then its neutral block, then its
red block; the green and red blocks are sorted ascending by sortable
timestamp with a missing timestamp read as epoch 0 (tsLE), and the
neutral block is sorted by the two-level order neutralLE: records
without a positive counter first (ascending by display name), then
records with a positive counter ascending by counter value. -/
theorem getSortedUnderwriters_spec (config : Config) (L : Ledger) :
    List.Perm (getSortedUnderwriters config L) (entriesOf config L) ∧
    getSortedUnderwriters config L =
      (getSortedUnderwriters config L).filter
        (fun u => u.status == Status.green) ++
      (getSortedUnderwriters config L).filter
        (fun u => u.status == Status.neutral) ++
      (getSortedUnderwriters config L).filter
        (fun u => u.status == Status.red) ∧
    List.Sorted tsLE ((getSortedUnderwriters config L).filter
      (fun u => u.status == Status.green)) ∧
    List.Sorted neutralLE ((getSortedUnderwriters config L).filter
      (fun u => u.status == Status.neutral)) ∧
    List.Sorted tsLE ((getSortedUnderwriters config L).filter
      (fun u => u.status == Status.red)) := by
  refine ⟨getSorted_perm_entries config L, ?_, ?_, ?_, ?_⟩
  · rw [out_filter_green, out_filter_neutral, out_filter_red,
      getSorted_eq_parts]
  · rw [out_filter_green]
    exact List.sorted_insertionSort tsLE _
  · rw [out_filter_neutral]
    exact List.sorted_insertionSort neutralLE _
  · rw [out_filter_red]
    exact List.sorted_insertionSort tsLE _

theorem entriesOf_map_email (config : Config) (L : Ledger) :
    (entriesOf config L).map (fun v => v.email) =
      config.map (fun p => p.1) := by
  rw [entriesOf, List.map_map]
  rfl

/-- C10: the sorted output holds exactly one view per configured
underwriter — its emails are a permutation of the configured emails, a
configured underwriter without a ledger record appears as the default
neutral/0/null view, no view carries an unconfigured email, and with
distinct configured emails each appears exactly once. -/
theorem getSortedUnderwriters_views (config : Config) (L : Ledger)
    (hnd : (config.map (fun p => p.1)).Nodup) :
    List.Perm ((getSortedUnderwriters config L).map (fun v => v.email))
      (config.map (fun p => p.1)) ∧
    (∀ v ∈ getSortedUnderwriters config L,
      v.email ∈ config.map (fun p => p.1)) ∧
    (∀ p ∈ config, lookupUW L.underwriters p.1 = none →
      ({ email := p.1, name := p.2, status := Status.neutral, count := 0,
         statusTime := none, statusTimestamp := none } : UWView) ∈
        getSortedUnderwriters config L) ∧
    (∀ e ∈ config.map (fun p => p.1),
      ((getSortedUnderwriters config L).filter
        (fun v => v.email == e)).length = 1) := by
  have hperm :
      List.Perm ((getSortedUnderwriters config L).map (fun v => v.email))
        (config.map (fun p => p.1)) := by
    have h1 := (getSorted_perm_entries config L).map (fun v => v.email)
    rwa [entriesOf_map_email] at h1
  refine ⟨hperm, ?_, ?_, ?_⟩
  · intro v hv
    exact hperm.mem_iff.mp (List.mem_map_of_mem (fun v => v.email) hv)
  · intro p hp hl
    apply (getSorted_perm_entries config L).mem_iff.mpr
    apply List.mem_map.mpr
    exact ⟨p, hp, by simp [hl]⟩
  · intro e he
    have h1 : ((getSortedUnderwriters config L).filter
        (fun v => v.email == e)).length =
        List.countP (fun v => v.email == e)
          (getSortedUnderwriters config L) :=
      (List.countP_eq_length_filter _ _).symm
    have h2 : List.countP (fun v => v.email == e)
        (getSortedUnderwriters config L) =
        List.countP (fun v => v.email == e) (entriesOf config L) :=
      (getSorted_perm_entries config L).countP_eq _
    have h3 : List.countP (fun v => v.email == e) (entriesOf config L) =
        List.countP (fun x => x == e)
          ((entriesOf config L).map (fun v => v.email)) := by
      rw [List.countP_map]
      rfl
    have h4 : List.countP (fun x => x == e)
        ((entriesOf config L).map (fun v => v.email)) =
        List.count e (config.map (fun p => p.1)) := by
      rw [entriesOf_map_email]
      rfl
    rw [h1, h2, h3, h4]
    exact List.count_eq_one_of_mem hnd he

/-- Witness for C10 on the sample configuration against a ledger that
has a record only for Amy. -/
theorem getSortedUnderwriters_views_witness :
    (sampleConfig.map (fun p => p.1)).Nodup ∧
    (List.Perm ((getSortedUnderwriters sampleConfig zeroLedger).map
        (fun v => v.email)) (sampleConfig.map (fun p => p.1)) ∧
      (∀ v ∈ getSortedUnderwriters sampleConfig zeroLedger,
        v.email ∈ sampleConfig.map (fun p => p.1)) ∧
      (∀ p ∈ sampleConfig, lookupUW zeroLedger.underwriters p.1 = none →
        ({ email := p.1, name := p.2, status := Status.neutral, count := 0,
           statusTime := none, statusTimestamp := none } : UWView) ∈
          getSortedUnderwriters sampleConfig zeroLedger) ∧
      (∀ e ∈ sampleConfig.map (fun p => p.1),
        ((getSortedUnderwriters sampleConfig zeroLedger).filter
          (fun v => v.email == e)).length = 1)) :=
  ⟨by decide,
    getSortedUnderwriters_views sampleConfig zeroLedger (by decide)⟩
